import Mathlib

/-!
Verification of the 6lowham-bridge core against its specification.

The development shallowly embeds the Python sources in `src/sixlowham/`:
octet strings become `List Nat` (each element an octet value 0..255; the
embedded arithmetic applies the same `% 256` masks the source applies, so
no range side conditions are needed), fallible operations return
`Except PyErr`, and the agent link state machine becomes a record of the
mutable fields with one Lean function per Python method.

Where the source contains one of the mechanical typos that its own
specification (spec.md section 9) lists as definite bugs and resolves
(`tx_buffer.push` for FIFO append, `self.DLE` for the module-level `DLE`
constant, `mtu` for `if_mtu`, `else if` for `elif`, a missing `construct`
subcon argument), the embedding uses the stated intended behavior and the
doc comment of the affected definition records the slip.  Divergences that
are not of that mechanical kind (checksum odd-octet handling, the
`next_header=None` passed to the last rendered header, the IPv6
parse/emit attribute and keyword errors, the infallibility of the
replace-based destuffer) are embedded exactly as the source has them and
surface in the theorems.
-/

/-- Error kinds raised by the embedded Python code. -/
inductive PyErr where
  | attributeError
  | typeError
  | valueError
  | keyError
  | buildError
deriving DecidableEq, Repr

/-! ## Byte constants (src/sixlowham/agent.py lines 14-26) -/

/-- SOH = b'\x01'. -/
def SOH : Nat := 1
/-- STX = b'\x02'. -/
def STX : Nat := 2
/-- E_STX = b'b' (0x62). -/
def E_STX : Nat := 98
/-- ETX = b'\x03'. -/
def ETX : Nat := 3
/-- E_ETX = b'c' (0x63). -/
def E_ETX : Nat := 99
/-- EOT = b'\x04'. -/
def EOT : Nat := 4
/-- ACK = b'\x06'. -/
def ACKB : Nat := 6
/-- DLE = b'\x10' (0x10 = 16). -/
def DLE : Nat := 16
/-- E_DLE = b'p' (0x70). -/
def E_DLE : Nat := 112
/-- NAK = b'\x15'. -/
def NAKB : Nat := 21
/-- FS = b'\x1c'. -/
def FSB : Nat := 28

/-! ## util.tobytes (src/sixlowham/util.py lines 5-23) -/

/-- An element of a Python list handed to `tobytes`: either an `int` or
some non-`int` object.  Only the first element's `int`-ness is tested by
`tobytes`; the rest matter when `bytes(data)` converts them. -/
inductive PyItem where
  | intItem (n : Int)
  | nonInt
deriving DecidableEq, Repr

/-- A Python value handed to `tobytes`: a `bytes` object, a list, an
object implementing `__bytes__` (whose conversion yields `bs`), or any
other object. -/
inductive PyVal where
  | pybytes (bs : List Nat)
  | pylist (xs : List PyItem)
  | withBytes (bs : List Nat)
  | otherObj
deriving DecidableEq, Repr

/-- Conversion of one list element by `bytes(data)`: an `int` must lie in
0..255 (else `ValueError`); a non-`int` raises `TypeError`. -/
def bytesOfItem : PyItem → Except PyErr Nat
  | .intItem n => if 0 ≤ n ∧ n < 256 then .ok n.toNat else .error .valueError
  | .nonInt => .error .typeError

/-- `bytes(data)` for a Python list `data`. -/
def bytesOfList : List PyItem → Except PyErr (List Nat)
  | [] => .ok []
  | i :: is => do
      let b ← bytesOfItem i
      let r ← bytesOfList is
      .ok (b :: r)

/-- The guard `isinstance(data, list) and (len(data) > 0) and
isinstance(data[0], int)` from `tobytes` (util.py lines 17-19). -/
def listCheckOk : List PyItem → Bool
  | [] => false
  | .intItem _ :: _ => true
  | .nonInt :: _ => false

/-- `util.tobytes` (util.py lines 5-23): a `bytes` object is returned as
is; an object with `__bytes__`, or a non-empty list whose first element is
an `int`, is converted by `bytes(data)`; everything else raises
`ValueError`.  (Python lists have no `__bytes__`, so the list test is the
one that applies to them.) -/
def tobytes : PyVal → Except PyErr (List Nat)
  | .pybytes bs => .ok bs
  | .withBytes bs => .ok bs
  | .pylist xs => if listCheckOk xs then bytesOfList xs else .error .valueError
  | .otherObj => .error .valueError

/-! ## rfc1071.checksum (src/sixlowham/rfc1071.py lines 6-30) -/

/-- The word-accumulation loop of `checksum` (rfc1071.py lines 16-21):
paired octets form a big-endian 16-bit word
`((data[i] << 8) & 0xff00) + (data[i+1] & 0xff)`; a trailing unpaired
octet contributes `data[i] & 0xff` (note: not shifted). -/
def sum16 : List Nat → Nat
  | [] => 0
  | [a] => a % 256
  | a :: b :: rest => ((a % 256) * 256 + b % 256) + sum16 rest

/-- Fuel-driven version of the carry-fold loop
`while (csum >> 16) > 0: csum = (csum & 0xffff) + (csum >> 16)`
(rfc1071.py lines 24-25).  Each iteration strictly decreases a value that
is at least 65536, so fuel equal to the starting value always suffices;
`foldCarry` supplies that fuel and `foldCarry_eq` below recovers the
loop's defining equation. -/
def foldGo : Nat → Nat → Nat
  | 0, c => c
  | f + 1, c => if 65536 ≤ c then foldGo f (c % 65536 + c / 65536) else c

/-- The carry-fold loop of `checksum`, as a function of the accumulator. -/
def foldCarry (c : Nat) : Nat := foldGo c c

/-- `rfc1071.checksum(data, csum)` (rfc1071.py lines 6-30): accumulate
16-bit words, fold the carries, then ones-complement.  For a nonnegative
Python int `x`, `(~x) & 0xffff` equals `65535 - x % 65536`, which is the
form used here (the folded value is always below 65536). -/
def checksum (data : List Nat) (csum : Nat) : Nat :=
  65535 - foldCarry (csum + sum16 data) % 65536

/-! ## Byte stuffing (src/sixlowham/agent.py lines 248-256 and 321-328) -/

/-- Python `bytes.replace(a, out)` for a one-octet needle `a`: every
occurrence of `a` is replaced by `out`.  (With a one-octet needle the
leftmost-nonoverlapping scan is exactly a per-octet substitution.) -/
def replaceByte (a : Nat) (out : List Nat) : List Nat → List Nat
  | [] => []
  | x :: xs => if x = a then out ++ replaceByte a out xs else x :: replaceByte a out xs

/-- Python `bytes.replace(bytes([a, b]), bytes([c]))` for a two-octet
needle: the leftmost-nonoverlapping scan, replacing each matched pair by
the single octet `c` and resuming after the replacement. -/
def replacePair (a b c : Nat) : List Nat → List Nat
  | [] => []
  | [x] => [x]
  | x :: y :: xs =>
      if x = a ∧ y = b then c :: replacePair a b c xs
      else x :: replacePair a b c (y :: xs)

/-- The escape phase of `SixLowHAMAgent._send_frame` (agent.py lines
249-252): substitute `DLE`, then `STX`, then `ETX`, in that order. -/
def stuffBytes (frame : List Nat) : List Nat :=
  replaceByte ETX [DLE, E_ETX]
    (replaceByte STX [DLE, E_STX]
      (replaceByte DLE [DLE, E_DLE] frame))

/-- `SixLowHAMAgent._send_frame` (agent.py lines 248-256): the escaped
frame wrapped in `STX` ... `ETX`, i.e. the octets written to the child's
standard input. -/
def send_frame (frame : List Nat) : List Nat :=
  STX :: stuffBytes frame ++ [ETX]

/-- `SixLowHamAgentProtocol._process_raw_frame` (agent.py lines 321-328):
the reverse substitutions `DLE,'b' -> STX`, then `DLE,'c' -> ETX`, then
`DLE,'p' -> DLE`.  The source spells the constants `self.DLE` etc., a slip
for the module-level constants (spec.md section 9); with the intended
constants the three `bytes.replace` calls are embedded here.  Note the
function is total: `bytes.replace` cannot fail, so no input makes this
raise. -/
def process_raw_frame (rawframe : List Nat) : List Nat :=
  replacePair DLE E_DLE DLE
    (replacePair DLE E_ETX ETX
      (replacePair DLE E_STX STX rawframe))

/-- Per-octet form of the full escape `stuffBytes` (proof artifact). -/
def stuffByteG (b : Nat) : List Nat :=
  if b = DLE then [DLE, E_DLE]
  else if b = STX then [DLE, E_STX]
  else if b = ETX then [DLE, E_ETX]
  else [b]

/-- Per-octet escape remaining after the `DLE,'b' -> STX` reverse
substitution has run (proof artifact). -/
def stuffByteG1 (b : Nat) : List Nat :=
  if b = DLE then [DLE, E_DLE]
  else if b = ETX then [DLE, E_ETX]
  else [b]

/-- Per-octet escape remaining after the `DLE,'c' -> ETX` reverse
substitution has also run (proof artifact). -/
def stuffByteG2 (b : Nat) : List Nat :=
  if b = DLE then [DLE, E_DLE]
  else [b]

/-- Concatenation of `stuffByteG1` over a payload (proof artifact). -/
def stuffStage1 : List Nat → List Nat
  | [] => []
  | x :: xs => stuffByteG1 x ++ stuffStage1 xs

/-- Concatenation of `stuffByteG2` over a payload (proof artifact). -/
def stuffStage2 : List Nat → List Nat
  | [] => []
  | x :: xs => stuffByteG2 x ++ stuffStage2 xs

/-! ## Stream deframing (src/sixlowham/agent.py lines 292-319) -/

/-- Index of the first occurrence of octet `b`, or `none`
(Python `bytes.find(b)` with -1 rendered as `none`). -/
def findByte (b : Nat) : List Nat → Option Nat
  | [] => none
  | x :: xs => if x = b then some 0 else (findByte b xs).map (· + 1)

/-- Python `buffer.find(b, start)`: first index of `b` at position
`start` or later. -/
def pyFind (b start : Nat) (l : List Nat) : Option Nat :=
  (findByte b (l.drop start)).map (· + start)

/-- The frame-extraction `while` loop of `pipe_data_received` (agent.py
lines 297-306), fuel-driven.  Faithfully, `framestart` is computed once
before the loop and never recomputed, so the same `fs` is reused against
the shrinking buffer; each iteration extracts `buffer[fs+1:fe]` and drops
the buffer through `fe`.  Each iteration removes at least one octet, so
fuel equal to the buffer length always suffices (`frameLoop_eq` below
recovers the loop's defining equation). -/
def frameLoopGo (fs : Nat) : Nat → List Nat → List (List Nat) × List Nat
  | 0, buf => ([], buf)
  | fuel + 1, buf =>
      match pyFind ETX fs buf with
      | none => ([], buf)
      | some fe =>
          ((buf.take fe).drop (fs + 1) :: (frameLoopGo fs fuel (buf.drop (fe + 1))).1,
           (frameLoopGo fs fuel (buf.drop (fe + 1))).2)

/-- The frame-extraction loop with its canonical fuel. -/
def frameLoop (fs : Nat) (buf : List Nat) : List (List Nat) × List Nat :=
  frameLoopGo fs buf.length buf

/-- `SixLowHamAgentProtocol.pipe_data_received` framing stage (agent.py
lines 292-306): append the received data to the buffer, look for the first
`STX`, and run the extraction loop.  Returns the new buffer contents and
the pending raw (still escaped) frames, in order. -/
def pipe_data_received (buffer data : List Nat) : List Nat × List (List Nat) :=
  match findByte STX (buffer ++ data) with
  | none => (buffer ++ data, [])
  | some fs =>
      ((frameLoop fs (buffer ++ data)).2, (frameLoop fs (buffer ++ data)).1)

/-- Feed a sequence of data chunks through `pipe_data_received`,
accumulating all extracted raw frames and the final buffer contents. -/
def runPipe (buffer : List Nat) : List (List Nat) → List (List Nat) × List Nat
  | [] => ([], buffer)
  | c :: cs =>
      ((pipe_data_received buffer c).2 ++
        (runPipe (pipe_data_received buffer c).1 cs).1,
       (runPipe (pipe_data_received buffer c).1 cs).2)

/-- The shape the stream buffer has between `pipe_data_received` calls
when fed a concatenation of wrapped frames: either empty, or the start of
a frame (an `STX`) followed by octets with no terminating `ETX` yet. -/
def SafeResidual (r : List Nat) : Prop :=
  r = [] ∨ ∃ t, r = STX :: t ∧ ETX ∉ t

/-! ## Agent link state machine (src/sixlowham/agent.py lines 127-274) -/

/-- The mutable transmit-side state of `SixLowHAMAgent`: `_tx_buffer`,
`_frame_pending` and `_retries`.  `_retries` is a Python int and is
compared with `<= 0`, so it is embedded as `Int`. -/
structure AgentState where
  txBuffer : List (List Nat)
  framePending : Bool
  retries : Int
deriving DecidableEq, Repr

/-- The state established by `__init__` (agent.py lines 70-72):
`_frame_pending = False`, `_retries = tx_attempts`, `_tx_buffer = []`. -/
def initState (txAttempts : Int) : AgentState :=
  ⟨[], false, txAttempts⟩

/-- The `while self._tx_buffer:` loop of `_send_next` (agent.py lines
226-246), recursing on the buffer.  A head with exhausted retries is
dropped and the counter reset (`continue`); otherwise `FS + head` is
handed to `_send_frame`, `_frame_pending` is set and the counter
decremented; an emptied buffer clears `_frame_pending` and resets the
counter.  The returned list collects the frames handed to `_send_frame`
(before byte stuffing). -/
def send_next_loop (txAttempts retries : Int) :
    List (List Nat) → AgentState × List (List Nat)
  | [] => (⟨[], false, txAttempts⟩, [])
  | f :: rest =>
      if retries ≤ 0 then send_next_loop txAttempts txAttempts rest
      else (⟨f :: rest, true, retries - 1⟩, [FSB :: f])

/-- `SixLowHAMAgent._send_next` (agent.py lines 224-246). -/
def send_next (txAttempts : Int) (s : AgentState) : AgentState × List (List Nat) :=
  send_next_loop txAttempts s.retries s.txBuffer

/-- A call of `_send_next` at one of its call sites: the
`assert not self._frame_pending` on entry (agent.py line 225) raises
`AssertionError` before any mutation when `_frame_pending` is set, which
leaves the state unchanged; otherwise the loop runs. -/
def pump (txAttempts : Int) (s : AgentState) : AgentState × List (List Nat) :=
  if s.framePending then (s, []) else send_next txAttempts s

/-- `SixLowHAMAgent._on_response` (agent.py lines 208-222): an empty
buffer is ignored; on success the head is popped and the retry counter
reset; `_frame_pending` is cleared; a non-empty buffer re-enters
`_send_next`. -/
def on_response (txAttempts : Int) (success : Bool) (s : AgentState) :
    AgentState × List (List Nat) :=
  if s.txBuffer = [] then (s, [])
  else
    let s1 : AgentState :=
      if success then ⟨s.txBuffer.drop 1, s.framePending, txAttempts⟩ else s
    let s2 : AgentState := ⟨s1.txBuffer, false, s1.retries⟩
    if s2.txBuffer = [] then (s2, []) else send_next txAttempts s2

/-- `SixLowHAMAgent.send_ethernet_frame` (agent.py lines 127-137): append
the frame to the transmit queue and, when no frame is pending, run the
pump.  The source writes `self._tx_buffer.push(frame)`; Python lists have
no `push`, and FIFO append is the stated intent (spec.md section 9; the
queue head is popped with `pop(0)`). -/
def send_ethernet_frame (txAttempts : Int) (f : List Nat) (s : AgentState) :
    AgentState × List (List Nat) :=
  let s1 : AgentState := ⟨s.txBuffer ++ [f], s.framePending, s.retries⟩
  if s1.framePending then (s1, []) else send_next txAttempts s1

/-- `SixLowHAMAgent._on_exit` (agent.py lines 258-274): the transmit
state is fully reset. -/
def on_exit (txAttempts : Int) (_s : AgentState) : AgentState :=
  ⟨[], false, txAttempts⟩

/-- One operation of the link state machine, as named by claim C8. -/
inductive AgentOp where
  | enqueue (f : List Nat)
  | pumpOp
  | response (success : Bool)
  | exitOp
deriving Repr

/-- Apply one operation to the state (transmitted frames discarded). -/
def applyOp (txAttempts : Int) (op : AgentOp) (s : AgentState) : AgentState :=
  match op with
  | .enqueue f => (send_ethernet_frame txAttempts f s).1
  | .pumpOp => (pump txAttempts s).1
  | .response b => (on_response txAttempts b s).1
  | .exitOp => on_exit txAttempts s

/-- Run a sequence of operations from the initial state. -/
def runOps (txAttempts : Int) (ops : List AgentOp) : AgentState :=
  ops.foldl (fun s op => applyOp txAttempts op s) (initState txAttempts)

/-- The claimed state invariant, decidably:
`frame_pending` implies `tx_buffer` non-empty. -/
def pendingInvB (s : AgentState) : Bool :=
  !s.framePending || !s.txBuffer.isEmpty

/-! ## IPv6 datagram emit and parse (src/sixlowham/ip6.py, icmp6.py)

The datagram-level round trip of claim C1 never runs in the source: both
`IP6Datagram.__bytes__` and `IP6Datagram.parse` hit Python name errors
before producing a result.  The tables below transcribe, directly from
`ip6.py`, the names each side relies on, so that the failures are derived
rather than asserted. -/

/-- Every attribute an `IP6Datagram` instance resolves, transcribed from
`ip6.py`: the instance attributes assigned in `__init__` (lines 121-126),
the class attributes (lines 94-110) and the methods and properties of the
class body (lines 128-220). -/
def ip6DatagramAttrs : List String :=
  ["_headers", "_trafficclass", "_flowlabel", "_hop_limit", "_source", "_dest",
   "_ETHERNET_PROTOCOL_", "_STRUCT_", "_KNOWN_PROTOCOLS_",
   "__init__", "registerprotocol", "parse", "append_header",
   "dest", "source", "headers", "next_header", "payload", "__bytes__"]

/-- The attribute reads `IP6Datagram.__bytes__` performs on `self`, in
evaluation order (ip6.py lines 205-220): `self.payload`, then the fields
of the `build` dictionary. -/
def ip6BytesAttrReads : List String :=
  ["payload", "trafficclass", "flowlabel", "next_header", "hop_limit",
   "source", "dest"]

/-- The first attribute read of `__bytes__` that `IP6Datagram` does not
define; a `some` value means `bytes(datagram)` raises `AttributeError`
there. -/
def ip6EmitMissingAttr : Option String :=
  ip6BytesAttrReads.find? (fun a => !(ip6DatagramAttrs.contains a))

/-- The parameters of `IP6Datagram.__init__` (ip6.py line 112). -/
def ip6InitParams : List String :=
  ["trafficclass", "flowlabel", "hop_limit", "source", "dest"]

/-- The keyword arguments `IP6Datagram.parse` passes to the constructor
(ip6.py lines 141-148). -/
def ip6ParseCtorKwargs : List String :=
  ["trafficclass", "flowlabel", "source", "dest", "hop_limit", "next_header"]

/-- The first keyword argument of the `parse` constructor call that
`__init__` does not accept; a `some` value means `IP6Datagram.parse`
raises `TypeError` at the constructor call. -/
def ip6ParseBadKwarg : Option String :=
  ip6ParseCtorKwargs.find? (fun a => !(ip6InitParams.contains a))

/-- The ordered header list of an `IP6Datagram`: a generic extension
header `IP6DatagramHeader(this_header, payload)` (ip6.py lines 25-79), an
`ICMP6Message` (icmp6.py lines 12-116, `_HEADER_ID_ = 58`), or a
`NoNextHeader` (ip6.py lines 223-237, `_HEADER_ID_ = 59`; its `__init__`
spells the class attribute `self._HEADER_ID`, a slip for `_HEADER_ID_`). -/
inductive IP6Header where
  | generic (thisHeader : Nat) (payload : List Nat)
  | icmp6 (msgtype msgcode : Nat) (message : List Nat) (payload : List Nat)
  | noNext (payload : List Nat)
deriving DecidableEq, Repr

/-- The `this_header` property (ip6.py lines 56-58): the protocol number
stored at construction. -/
def IP6Header.this_header : IP6Header → Nat
  | .generic th _ => th
  | .icmp6 _ _ _ _ => 58
  | .noNext _ => 59

/-- `IP6DatagramHeader.dump` (ip6.py lines 64-75).  `next_header` is the
value the datagram's `payload` property passes in, which is `None` for the
last header of the chain; `construct.Byte.build(None)` raises, embedded as
`typeError`.  `length` is `int(((len(payload) - 6) + 7)/8)`, i.e.
`(len + 1) / 8` rounded toward zero.  The `construct` struct checks each
field's range and the array length `6 + ext_len*8` on build (the source's
`construct.Array(6 + this.ext_len * 8)` omits the `construct.Byte` subcon,
a mechanical slip: cf. the complete pattern at icmp6.py line 21); a
violation is embedded as `buildError`. -/
def genericDump (payload : List Nat) (next_header : Option Nat) :
    Except PyErr (List Nat) :=
  match next_header with
  | none => .error .typeError
  | some nh =>
      let extLen := (payload.length + 1) / 8
      if nh < 256 ∧ extLen < 256 ∧ payload.length = 6 + 8 * extLen then
        .ok (nh :: extLen :: payload)
      else .error .buildError

/-- The fields `ICMP6Message._PSEUDOHEADER_` requires on build
(icmp6.py lines 25-31). -/
def pseudoHeaderFields : List String :=
  ["source", "dest", "length", "next_header"]

/-- The fields `ICMP6Message.dump` supplies to the pseudo-header build
(icmp6.py lines 92-95). -/
def icmp6DumpPseudoArgs : List String :=
  ["source", "dest", "length"]

/-- `ICMP6Message.dump` (icmp6.py lines 86-111): the first thing it does
is `self._PSEUDOHEADER_.build(dict(source=..., dest=..., length=...))`.
The struct requires a `next_header` field that the dictionary does not
supply, so `construct` raises a key error before any octets are produced;
the check is derived from the field tables above. -/
def icmp6Dump (_source _dest : List Nat) (_msgtype _msgcode : Nat)
    (_message _payload : List Nat) : Except PyErr (List Nat) :=
  match pseudoHeaderFields.find? (fun f => !(icmp6DumpPseudoArgs.contains f)) with
  | some _ => .error .keyError
  | none =>
      -- Unreachable: the tables above leave next_header unsupplied.
      .error .keyError

/-- Dispatch of `header.dump(next_header=nh)` over the header kinds.
`NoNextHeader.dump` returns the payload and ignores `next_header`
(ip6.py lines 236-237); `ICMP6Message.dump` ignores it too (icmp6.py line
86) but needs the enclosing datagram's addresses. -/
def dumpHeader (source dest : List Nat) (h : IP6Header) (nh : Option Nat) :
    Except PyErr (List Nat) :=
  match h with
  | .generic _ payload => genericDump payload nh
  | .icmp6 t c msg pay => icmp6Dump source dest t c msg pay
  | .noNext payload => .ok payload

/-- The successor protocol numbers computed by the `zip` in the datagram's
`payload` property (ip6.py lines 196-203):
`zip(headers, [h.this_header for h in headers[1:]] + [None])`, so header
`i` is paired with header `i+1`'s protocol number and the last header with
`None`. -/
def nextHeaderArgs (hs : List IP6Header) : List (Option Nat) :=
  (((hs.drop 1).map (fun h => some (IP6Header.this_header h))) ++ [none]).take hs.length

/-- Concatenate the dumps of the header/successor pairs (the `for` loop
of the `payload` property); a raised error propagates. -/
def renderPayloadAux (source dest : List Nat) :
    List (IP6Header × Option Nat) → Except PyErr (List Nat)
  | [] => .ok []
  | (h, nh) :: rest => do
      let b ← dumpHeader source dest h nh
      let r ← renderPayloadAux source dest rest
      .ok (b ++ r)

/-- The datagram's `payload` property (ip6.py lines 196-203). -/
def renderPayload (source dest : List Nat) (hs : List IP6Header) :
    Except PyErr (List Nat) :=
  renderPayloadAux source dest (hs.zip (nextHeaderArgs hs))

/-- The datagram's `next_header` property (ip6.py lines 189-194):
`headers[0].this_header`, or `NoNextHeader._HEADER_ID_` = 59 on
`IndexError`. -/
def datagramNextHeader (hs : List IP6Header) : Nat :=
  match hs with
  | [] => 59
  | h :: _ => h.this_header

/-! # Theorems -/

/-! ## Carry folding (rfc1071) -/

theorem foldGo_of_lt (f c : Nat) (h : c < 65536) : foldGo f c = c := by
  cases f with
  | zero => rfl
  | succ f => simp [foldGo, Nat.not_le.mpr h]

theorem foldStep_lt (c : Nat) (h : 65536 ≤ c) : c % 65536 + c / 65536 < c := by
  omega

theorem foldGo_congr : ∀ (f g c : Nat), c ≤ f → c ≤ g → foldGo f c = foldGo g c
  | 0, g, c, hf, _ => by
      have hc : c = 0 := Nat.le_zero.mp hf
      subst hc
      cases g with
      | zero => rfl
      | succ g => simp [foldGo]
  | f + 1, g, c, hf, hg => by
      by_cases h : 65536 ≤ c
      · cases g with
        | zero => omega
        | succ g =>
            have hlt := foldStep_lt c h
            simp only [foldGo, if_pos h]
            exact foldGo_congr f g (c % 65536 + c / 65536) (by omega) (by omega)
      · have h1 : c < 65536 := by omega
        rw [foldGo_of_lt _ _ h1, foldGo_of_lt _ _ h1]

/-- The defining equation of the carry-fold `while` loop. -/
theorem foldCarry_eq (c : Nat) :
    foldCarry c = if 65536 ≤ c then foldCarry (c % 65536 + c / 65536) else c := by
  by_cases h : 65536 ≤ c
  · rw [if_pos h]
    cases c with
    | zero => omega
    | succ k =>
        have hlt := foldStep_lt (k + 1) h
        unfold foldCarry
        simp only [foldGo, if_pos h]
        exact foldGo_congr k ((k + 1) % 65536 + (k + 1) / 65536)
          ((k + 1) % 65536 + (k + 1) / 65536) (by omega) (by omega)
  · rw [if_neg h]
    exact foldGo_of_lt _ _ (by omega)

theorem foldCarry_lt (c : Nat) : foldCarry c < 65536 := by
  induction c using Nat.strong_induction_on with
  | _ c ih =>
    rw [foldCarry_eq]
    by_cases h : 65536 ≤ c
    · rw [if_pos h]
      exact ih _ (foldStep_lt c h)
    · rw [if_neg h]
      omega

theorem foldCarry_mod (c : Nat) : foldCarry c % 65535 = c % 65535 := by
  induction c using Nat.strong_induction_on with
  | _ c ih =>
    rw [foldCarry_eq]
    by_cases h : 65536 ≤ c
    · rw [if_pos h, ih _ (foldStep_lt c h)]
      omega
    · rw [if_neg h]

theorem foldCarry_pos (c : Nat) (h : 0 < c) : 0 < foldCarry c := by
  induction c using Nat.strong_induction_on with
  | _ c ih =>
    rw [foldCarry_eq]
    by_cases h1 : 65536 ≤ c
    · rw [if_pos h1]
      exact ih _ (foldStep_lt c h1) (by omega)
    · rwa [if_neg h1]

theorem sum16_append_even : ∀ (pre l : List Nat), pre.length % 2 = 0 →
    sum16 (pre ++ l) = sum16 pre + sum16 l
  | [], _, _ => by simp [sum16]
  | [_], _, h => by simp at h
  | a :: b :: t, l, h => by
      have ht : t.length % 2 = 0 := by
        simp [List.length_cons] at h
        omega
      have ih := sum16_append_even t l ht
      simp only [List.cons_append, sum16, List.append_eq, ih]
      ring

/-- The self-verification property of the embedded `checksum`: writing
the computed checksum into a word-aligned zero field and recomputing
yields 0. -/
theorem checksum_reinsert_zero (pre suf : List Nat) (h : pre.length % 2 = 0) :
    checksum (pre ++ (checksum (pre ++ (0 :: 0 :: suf)) 0 / 256 ::
                      checksum (pre ++ (0 :: 0 :: suf)) 0 % 256 :: suf)) 0 = 0 := by
  have hS : sum16 (pre ++ (0 :: 0 :: suf)) = sum16 pre + sum16 suf := by
    rw [sum16_append_even pre _ h]
    simp [sum16]
  set S : Nat := sum16 pre + sum16 suf with hSdef
  set F : Nat := foldCarry S with hFdef
  have hFlt : F < 65536 := foldCarry_lt S
  have hFmod : F % 65535 = S % 65535 := foldCarry_mod S
  have hc : checksum (pre ++ (0 :: 0 :: suf)) 0 = 65535 - F := by
    unfold checksum
    rw [Nat.zero_add, hS]
    rw [Nat.mod_eq_of_lt hFlt]
  rw [hc]
  set c : Nat := 65535 - F with hcdef
  have hcle : c ≤ 65535 := by omega
  have hS2 : sum16 (pre ++ (c / 256 :: c % 256 :: suf)) = S + c := by
    rw [sum16_append_even pre _ h]
    simp only [sum16]
    omega
  unfold checksum
  rw [Nat.zero_add, hS2]
  have hSpos : 0 < S + c := by
    rcases Nat.eq_zero_or_pos S with hS0 | hS0
    · have hF0 : F = 0 := by
        rw [hFdef, hS0]
        rfl
      omega
    · omega
  have hF2lt : foldCarry (S + c) < 65536 := foldCarry_lt (S + c)
  have hF2mod : foldCarry (S + c) % 65535 = (S + c) % 65535 := foldCarry_mod (S + c)
  have hF2pos : 0 < foldCarry (S + c) := foldCarry_pos (S + c) hSpos
  omega

/-- Claim C4: for every octet string with a word-aligned 16-bit big-endian
checksum field set to zero, writing `checksum(d)` into that field and
recomputing the checksum yields 0; and the known vector
`checksum(b"\x00\x01\xf2\x03\xf4\xf5\xf6\xf7") = 0x220d` holds. -/
theorem rfc1071_insert_verifies :
    (∀ pre suf : List Nat, pre.length % 2 = 0 →
        checksum (pre ++ (checksum (pre ++ (0 :: 0 :: suf)) 0 / 256 ::
                          checksum (pre ++ (0 :: 0 :: suf)) 0 % 256 :: suf)) 0 = 0)
    ∧ checksum [0, 1, 242, 3, 244, 245, 246, 247] 0 = 8717 := by
  refine ⟨checksum_reinsert_zero, ?_⟩
  unfold checksum
  norm_num [sum16]
  rw [foldCarry_eq]
  norm_num
  rw [foldCarry_eq]
  norm_num

/-- Witness for C4 at the concrete field position 2 of an 8-octet
string. -/
theorem rfc1071_insert_verifies_witness :
    ([0, 1] : List Nat).length % 2 = 0
    ∧ checksum ([0, 1] ++ (checksum ([0, 1] ++ (0 :: 0 :: [244, 245, 246, 247])) 0 / 256 ::
                checksum ([0, 1] ++ (0 :: 0 :: [244, 245, 246, 247])) 0 % 256 ::
                [244, 245, 246, 247])) 0 = 0 :=
  ⟨by decide, rfc1071_insert_verifies.1 [0, 1] [244, 245, 246, 247] (by decide)⟩

/-- Claim C5, settled against the code: for odd-length input the trailing
octet is added to the accumulator as `data[i] & 0xff`, that is as the LOW
byte of a final word (the claim and RFC 1071 call for `data[i] << 8`, the
high byte).  Concretely `checksum(b"\x01") = 0xfffe = 65534`, where the
claimed high-byte treatment would give `0xfeff`. -/
theorem checksum_odd_tail_low_byte :
    (∀ (pre : List Nat) (b : Nat), pre.length % 2 = 0 →
        sum16 (pre ++ [b]) = sum16 pre + b % 256)
    ∧ checksum [1] 0 = 65534 := by
  constructor
  · intro pre b h
    rw [sum16_append_even pre [b] h]
    rfl
  · unfold checksum
    norm_num [sum16]
    rw [foldCarry_eq]
    norm_num

/-- Witness for C5 at the one-octet input `b"\x01"`. -/
theorem checksum_odd_tail_low_byte_witness :
    ([] : List Nat).length % 2 = 0 ∧ sum16 ([] ++ [1]) = sum16 [] + 1 % 256 :=
  ⟨by decide, checksum_odd_tail_low_byte.1 [] 1 (by decide)⟩

/-! ## util.tobytes (claim C10) -/

/-- Claim C10: `tobytes` raises `ValueError` on the empty list, returns
`b""` unchanged, and accepts a list exactly when it is non-empty with an
`int` first element. -/
theorem tobytes_list_guard :
    tobytes (PyVal.pylist []) = Except.error PyErr.valueError
    ∧ tobytes (PyVal.pybytes []) = Except.ok []
    ∧ ∀ xs : List PyItem,
        listCheckOk xs = true ↔
          xs ≠ [] ∧ ∃ n, xs.head? = some (PyItem.intItem n) := by
  refine ⟨rfl, rfl, ?_⟩
  intro xs
  match xs with
  | [] => simp [listCheckOk]
  | .intItem n :: t =>
      simp only [listCheckOk, List.head?, true_iff]
      exact ⟨List.cons_ne_nil _ _, n, rfl⟩
  | .nonInt :: t => simp [listCheckOk, List.head?]

/-- Witness for C10 at a one-element int list. -/
theorem tobytes_list_guard_witness :
    listCheckOk [PyItem.intItem 5] = true ↔
      [PyItem.intItem 5] ≠ [] ∧
        ∃ n, [PyItem.intItem 5].head? = some (PyItem.intItem n) :=
  tobytes_list_guard.2.2 [PyItem.intItem 5]

/-! ## IPv6 round trip (claim C1) -/

/-- Claim C1, settled against the code: the parse/emit round trip cannot
run.  `IP6Datagram.__bytes__` reads `self.trafficclass`, which the class
never defines (the constructor stores `_trafficclass` and no property
exposes it), so emitting raises `AttributeError`; and `IP6Datagram.parse`
passes the keyword argument `next_header` to a constructor that does not
accept it, so parsing raises `TypeError`. -/
theorem ip6_roundtrip_name_errors :
    ip6EmitMissingAttr = some ("trafficclass")
    ∧ ip6ParseBadKwarg = some ("next_header") :=
  ⟨rfl, rfl⟩

/-! ## Byte stuffing round trip (claim C2) -/

theorem replaceByte_append (a : Nat) (out : List Nat) :
    ∀ l1 l2, replaceByte a out (l1 ++ l2) =
      replaceByte a out l1 ++ replaceByte a out l2
  | [], l2 => by simp [replaceByte]
  | x :: xs, l2 => by
      by_cases h : x = a
      · simp [replaceByte, h, replaceByte_append a out xs l2, List.append_assoc]
      · simp [replaceByte, h, replaceByte_append a out xs l2]

/-- One octet's contribution to the full escape. -/
theorem stuff_cons (x : Nat) (xs : List Nat) :
    stuffBytes (x :: xs) = stuffByteG x ++ stuffBytes xs := by
  simp only [stuffBytes, stuffByteG, DLE, STX, ETX, E_DLE, E_STX, E_ETX]
  by_cases h16 : x = 16
  · subst h16
    simp [replaceByte, replaceByte_append]
  · by_cases h2 : x = 2
    · subst h2
      simp [replaceByte, replaceByte_append]
    · by_cases h3 : x = 3
      · subst h3
        simp [replaceByte, replaceByte_append]
      · simp [replaceByte, replaceByte_append, h16, h2, h3]

theorem stuffByteG_no_stx_etx (b : Nat) :
    STX ∉ stuffByteG b ∧ ETX ∉ stuffByteG b := by
  simp only [stuffByteG, STX, ETX, DLE, E_DLE, E_STX, E_ETX]
  by_cases h16 : b = 16
  · simp [h16]
  · by_cases h2 : b = 2
    · simp [h16, h2]
    · by_cases h3 : b = 3
      · simp [h16, h2, h3]
      · simp only [if_neg h16, if_neg h2, if_neg h3, List.mem_singleton]
        constructor <;> omega

theorem stx_not_mem_stuff : ∀ p : List Nat, STX ∉ stuffBytes p
  | [] => by simp [stuffBytes, replaceByte]
  | x :: xs => by
      rw [stuff_cons]
      simp only [List.mem_append]
      rintro (h | h)
      · exact (stuffByteG_no_stx_etx x).1 h
      · exact stx_not_mem_stuff xs h

theorem etx_not_mem_stuff : ∀ p : List Nat, ETX ∉ stuffBytes p
  | [] => by simp [stuffBytes, replaceByte]
  | x :: xs => by
      rw [stuff_cons]
      simp only [List.mem_append]
      rintro (h | h)
      · exact (stuffByteG_no_stx_etx x).2 h
      · exact etx_not_mem_stuff xs h

/-- A two-octet replace skips an octet that cannot start the needle. -/
theorem rp_cons_ne (p1 p2 c x : Nat) (hx : x ≠ p1) :
    ∀ l, replacePair p1 p2 c (x :: l) = x :: replacePair p1 p2 c l
  | [] => by simp [replacePair]
  | y :: t => by
      have h : ¬(x = p1 ∧ y = p2) := fun h => hx h.1
      simp [replacePair, h]

/-- A two-octet replace skips a pair whose second octet mismatches. -/
theorem rp_pair_ne (p1 p2 c x y : Nat) (hy : y ≠ p2) (l : List Nat) :
    replacePair p1 p2 c (x :: y :: l) = x :: replacePair p1 p2 c (y :: l) := by
  have h : ¬(x = p1 ∧ y = p2) := fun h => hy h.2
  simp [replacePair, h]

/-- A two-octet replace leaves a final octet that can neither start nor
finish the needle in place. -/
theorem rp_append_last (p1 p2 c b : Nat) (hb : b ≠ p2) :
    ∀ l : List Nat, replacePair p1 p2 c (l ++ [b]) = replacePair p1 p2 c l ++ [b]
  | [] => by simp [replacePair]
  | [x] => by
      have h : ¬(x = p1 ∧ b = p2) := fun h => hb h.2
      simp [replacePair, h]
  | x :: y :: t => by
      have ih1 := rp_append_last p1 p2 c b hb t
      have ih2 := rp_append_last p1 p2 c b hb (y :: t)
      by_cases h : x = p1 ∧ y = p2
      · simp [replacePair, h, ih1]
      · have ih2n := ih2
        simp only [List.cons_append] at ih2n
        simp only [List.cons_append, replacePair, if_neg h, List.append_eq]
        rw [ih2n]

/-- First reverse substitution: exactly the `STX` escapes disappear. -/
theorem destuff_stage1 : ∀ p : List Nat,
    replacePair DLE E_STX STX (stuffBytes p) = stuffStage1 p
  | [] => by simp [stuffBytes, replaceByte, stuffStage1, replacePair]
  | x :: xs => by
      have ih := destuff_stage1 xs
      rw [stuff_cons]
      simp only [stuffByteG, stuffStage1, stuffByteG1,
        DLE, STX, ETX, E_DLE, E_STX, E_ETX] at *
      by_cases h16 : x = 16
      · subst h16
        simp only [ite_true, eq_self_iff_true, if_true, List.cons_append, List.nil_append]
        rw [rp_pair_ne 16 98 2 16 112 (by omega), rp_cons_ne 16 98 2 112 (by omega), ih]
      · by_cases h2 : x = 2
        · subst h2
          simp only [if_neg (by omega : ¬(2 : Nat) = 16), if_pos rfl,
            List.cons_append, List.nil_append]
          simp [replacePair, ih]
        · by_cases h3 : x = 3
          · subst h3
            simp
            rw [rp_pair_ne 16 98 2 16 99 (by omega), rp_cons_ne 16 98 2 99 (by omega), ih]
          · simp only [if_neg h16, if_neg h2, if_neg h3,
              List.cons_append, List.nil_append]
            rw [rp_cons_ne 16 98 2 x h16, ih]

/-- Second reverse substitution: exactly the `ETX` escapes disappear. -/
theorem destuff_stage2 : ∀ p : List Nat,
    replacePair DLE E_ETX ETX (stuffStage1 p) = stuffStage2 p
  | [] => by simp [stuffStage1, stuffStage2, replacePair]
  | x :: xs => by
      have ih := destuff_stage2 xs
      simp only [stuffStage1, stuffStage2, stuffByteG1, stuffByteG2,
        DLE, STX, ETX, E_DLE, E_STX, E_ETX] at *
      by_cases h16 : x = 16
      · subst h16
        simp
        rw [rp_pair_ne 16 99 3 16 112 (by omega), rp_cons_ne 16 99 3 112 (by omega), ih]
      · by_cases h3 : x = 3
        · subst h3
          simp only [if_neg (by omega : ¬(3 : Nat) = 16), if_pos rfl,
            List.cons_append, List.nil_append]
          simp [replacePair, ih]
        · simp only [if_neg h16, if_neg h3, List.cons_append, List.nil_append]
          rw [rp_cons_ne 16 99 3 x h16, ih]

/-- Third reverse substitution: the `DLE` escapes disappear, recovering
the original payload. -/
theorem destuff_stage3 : ∀ p : List Nat,
    replacePair DLE E_DLE DLE (stuffStage2 p) = p
  | [] => by simp [stuffStage2, replacePair]
  | x :: xs => by
      have ih := destuff_stage3 xs
      simp only [stuffStage2, stuffByteG2, DLE, E_DLE] at *
      by_cases h16 : x = 16
      · subst h16
        simp
        simp [replacePair, ih]
      · simp only [if_neg h16, List.cons_append, List.nil_append]
        rw [rp_cons_ne 16 112 16 x h16, ih]

/-- The reverse substitutions of `_process_raw_frame` invert the escape
phase of `_send_frame`. -/
theorem destuff_stuff (p : List Nat) : process_raw_frame (stuffBytes p) = p := by
  unfold process_raw_frame
  rw [destuff_stage1, destuff_stage2, destuff_stage3]

/-- A dangling final `DLE` passes through all three reverse
substitutions untouched. -/
theorem destuff_append_dle (r : List Nat) :
    process_raw_frame (r ++ [DLE]) = process_raw_frame r ++ [DLE] := by
  unfold process_raw_frame
  rw [rp_append_last DLE E_STX STX DLE (by decide) r,
    rp_append_last DLE E_ETX ETX DLE (by decide),
    rp_append_last DLE E_DLE DLE DLE (by decide)]

/-- Claim C2: the escape substitutions of `_send_frame` (DLE, then STX,
then ETX) composed with the reverse substitutions of
`_process_raw_frame` (DLE,'b' to STX, then DLE,'c' to ETX, then DLE,'p'
to DLE) restore every payload; and the S1 vector:
`wrap(b"\x10\x02\x03") = b"\x02\x10\x70\x10\x62\x10\x63\x03"`, whose
inter-delimiter octets decode back to `b"\x10\x02\x03"`. -/
theorem bytestuff_roundtrip :
    (∀ p : List Nat, process_raw_frame (stuffBytes p) = p)
    ∧ send_frame [16, 2, 3] = [2, 16, 112, 16, 98, 16, 99, 3]
    ∧ process_raw_frame [16, 112, 16, 98, 16, 99] = [16, 2, 3] :=
  ⟨destuff_stuff, by decide, by decide⟩

/-- Witness for C2 at the S1 payload. -/
theorem bytestuff_roundtrip_witness :
    process_raw_frame (stuffBytes [16, 2, 3]) = [16, 2, 3] :=
  bytestuff_roundtrip.1 [16, 2, 3]



/-! ## Stream deframing (claims C3 and C9) -/

theorem findByte_eq_none (b : Nat) : ∀ l : List Nat, b ∉ l → findByte b l = none
  | [], _ => rfl
  | x :: xs, h => by
      simp only [List.mem_cons, not_or] at h
      simp only [findByte]
      rw [if_neg (fun he => h.1 he.symm), findByte_eq_none b xs h.2]
      rfl

theorem findByte_append (b : Nat) : ∀ (l1 l2 : List Nat), b ∉ l1 →
    findByte b (l1 ++ b :: l2) = some l1.length
  | [], l2, _ => by simp [findByte]
  | x :: xs, l2, h => by
      simp only [List.mem_cons, not_or] at h
      simp only [List.cons_append, findByte, List.append_eq]
      rw [if_neg (fun he => h.1 he.symm), findByte_append b xs l2 h.2]
      simp

theorem findByte_lt (b : Nat) : ∀ (l : List Nat) (j : Nat),
    findByte b l = some j → j < l.length
  | [], j, h => by simp [findByte] at h
  | x :: xs, j, h => by
      simp only [findByte] at h
      by_cases hx : x = b
      · rw [if_pos hx] at h
        cases h
        simp
      · rw [if_neg hx] at h
        cases hfind : findByte b xs with
        | none => rw [hfind] at h; simp at h
        | some k =>
            rw [hfind] at h
            simp at h
            have hk := findByte_lt b xs k hfind
            simp only [List.length_cons]
            omega

theorem pyFind_zero (b : Nat) (l : List Nat) : pyFind b 0 l = findByte b l := by
  unfold pyFind
  rw [List.drop_zero]
  cases findByte b l <;> simp

theorem pyFind_some_lt (b s : Nat) (l : List Nat) (i : Nat)
    (h : pyFind b s l = some i) : i < l.length := by
  unfold pyFind at h
  cases hfind : findByte b (l.drop s) with
  | none => rw [hfind] at h; simp at h
  | some j =>
      rw [hfind] at h
      simp at h
      have hj := findByte_lt b (l.drop s) j hfind
      simp only [List.length_drop] at hj
      omega

theorem frameLoopGo_congr (fs : Nat) : ∀ (f g : Nat) (buf : List Nat),
    buf.length ≤ f → buf.length ≤ g → frameLoopGo fs f buf = frameLoopGo fs g buf
  | 0, g, buf, hf, _ => by
      have hb : buf = [] := List.length_eq_zero.mp (Nat.le_zero.mp hf)
      subst hb
      cases g with
      | zero => rfl
      | succ g =>
          have hnone : pyFind ETX fs ([] : List Nat) = none := by
            simp [pyFind, findByte]
          simp [frameLoopGo, hnone]
  | f + 1, g, buf, _, hg => by
      cases g with
      | zero =>
          have hb : buf = [] := List.length_eq_zero.mp (Nat.le_zero.mp hg)
          subst hb
          have hnone : pyFind ETX fs ([] : List Nat) = none := by
            simp [pyFind, findByte]
          simp [frameLoopGo, hnone]
      | succ g =>
          cases hfe : pyFind ETX fs buf with
          | none => simp [frameLoopGo, hfe]
          | some fe =>
              have hlt := pyFind_some_lt ETX fs buf fe hfe
              have hd1 : (buf.drop (fe + 1)).length ≤ f := by
                simp only [List.length_drop]
                omega
              have hd2 : (buf.drop (fe + 1)).length ≤ g := by
                simp only [List.length_drop]
                omega
              simp only [frameLoopGo, hfe]
              rw [frameLoopGo_congr fs f g (buf.drop (fe + 1)) hd1 hd2]

/-- The extraction loop when no `ETX` is found at or after `fs`. -/
theorem frameLoop_none (fs : Nat) (buf : List Nat)
    (h : pyFind ETX fs buf = none) : frameLoop fs buf = ([], buf) := by
  cases buf with
  | nil => rfl
  | cons x xs =>
      show frameLoopGo fs (xs.length + 1) (x :: xs) = _
      simp [frameLoopGo, h]

/-- The extraction loop when an `ETX` is found: one frame is cut out and
the loop continues on the advanced buffer, with the stale `fs`. -/
theorem frameLoop_some (fs : Nat) (buf : List Nat) (fe : Nat)
    (h : pyFind ETX fs buf = some fe) :
    frameLoop fs buf =
      ((buf.take fe).drop (fs + 1) :: (frameLoop fs (buf.drop (fe + 1))).1,
       (frameLoop fs (buf.drop (fe + 1))).2) := by
  cases buf with
  | nil =>
      exfalso
      have : pyFind ETX fs ([] : List Nat) = none := by simp [pyFind, findByte]
      rw [this] at h
      cases h
  | cons x xs =>
      have hlt := pyFind_some_lt ETX fs (x :: xs) fe h
      show frameLoopGo fs (xs.length + 1) (x :: xs) = _
      simp only [frameLoopGo, h]
      rw [frameLoopGo_congr fs xs.length ((x :: xs).drop (fe + 1)).length
        ((x :: xs).drop (fe + 1))
        (by simp only [List.length_drop, List.length_cons]; omega)
        (Nat.le_refl _)]
      rfl

/-- `pipe_data_received` when the buffer holds no `STX`. -/
theorem pipe_none (buffer data : List Nat)
    (h : findByte STX (buffer ++ data) = none) :
    pipe_data_received buffer data = (buffer ++ data, []) := by
  unfold pipe_data_received
  simp [h]

/-- `pipe_data_received` when the first `STX` sits at index `fs`. -/
theorem pipe_some (buffer data : List Nat) (fs : Nat)
    (h : findByte STX (buffer ++ data) = some fs) :
    pipe_data_received buffer data =
      ((frameLoop fs (buffer ++ data)).2, (frameLoop fs (buffer ++ data)).1) := by
  unfold pipe_data_received
  simp [h]

/-- Running the extraction loop over whole wrapped frames followed by a
safe residual yields exactly the stuffed frame bodies and the residual. -/
theorem frameLoop_join : ∀ (qs : List (List Nat)) (r : List Nat), SafeResidual r →
    frameLoop 0 ((qs.map send_frame).flatten ++ r) = (qs.map stuffBytes, r)
  | [], r, hr => by
      simp only [List.map_nil, List.flatten_nil, List.nil_append]
      rcases hr with rfl | ⟨t, rfl, ht⟩
      · exact frameLoop_none 0 [] (by simp [pyFind, findByte])
      · refine frameLoop_none 0 (STX :: t) ?_
        rw [pyFind_zero]
        refine findByte_eq_none _ _ ?_
        intro hmem
        rcases List.mem_cons.mp hmem with h1 | h2
        · exact absurd h1 (by decide)
        · exact ht h2
  | q :: qs', r, hr => by
      have ih := frameLoop_join qs' r hr
      have hbuf : ((q :: qs').map send_frame).flatten ++ r =
          (STX :: stuffBytes q) ++ (ETX :: ((qs'.map send_frame).flatten ++ r)) := by
        simp [send_frame, List.flatten_cons]
      have hnotmem : ETX ∉ STX :: stuffBytes q := by
        intro hmem
        rcases List.mem_cons.mp hmem with h1 | h2
        · exact absurd h1 (by decide)
        · exact etx_not_mem_stuff q h2
      rw [hbuf]
      have hfind : pyFind ETX 0
          ((STX :: stuffBytes q) ++ (ETX :: ((qs'.map send_frame).flatten ++ r))) =
          some (STX :: stuffBytes q).length := by
        rw [pyFind_zero]
        exact findByte_append ETX (STX :: stuffBytes q) _ hnotmem
      rw [frameLoop_some 0 _ _ hfind]
      have htake : (((STX :: stuffBytes q) ++
          (ETX :: ((qs'.map send_frame).flatten ++ r))).take
            (STX :: stuffBytes q).length).drop (0 + 1) = stuffBytes q := by
        rw [List.take_left]
        simp
      have hdrop : ((STX :: stuffBytes q) ++
          (ETX :: ((qs'.map send_frame).flatten ++ r))).drop
            ((STX :: stuffBytes q).length + 1) =
          (qs'.map send_frame).flatten ++ r := by
        have e : (STX :: stuffBytes q) ++ (ETX :: ((qs'.map send_frame).flatten ++ r)) =
            ((STX :: stuffBytes q) ++ [ETX]) ++ ((qs'.map send_frame).flatten ++ r) := by
          simp
        rw [e]
        have hlen : (STX :: stuffBytes q).length + 1 =
            ((STX :: stuffBytes q) ++ [ETX]).length := by simp
        rw [hlen, List.drop_left]
      rw [htake, hdrop, ih]
      simp

/-- `pipe_data_received` on a buffer holding whole wrapped frames plus a
safe residual: the residual becomes the new buffer and the stuffed frame
bodies are returned pending. -/
theorem pipe_join (qs : List (List Nat)) (r buffer data : List Nat)
    (hr : SafeResidual r) (hbd : buffer ++ data = (qs.map send_frame).flatten ++ r) :
    pipe_data_received buffer data = (r, qs.map stuffBytes) := by
  cases qs with
  | nil =>
      rcases hr with rfl | ⟨t, rfl, ht⟩
      · have hb : buffer ++ data = [] := by simpa using hbd
        rw [pipe_none buffer data (by rw [hb]; rfl), hb]
        rfl
      · have hb : buffer ++ data = STX :: t := by simpa using hbd
        have hhead : findByte STX (buffer ++ data) = some 0 := by
          rw [hb]
          simp [findByte]
        rw [pipe_some buffer data 0 hhead, hb]
        have := frameLoop_join [] (STX :: t) (Or.inr ⟨t, rfl, ht⟩)
        simp only [List.map_nil, List.flatten_nil, List.nil_append] at this
        rw [this]
        rfl
  | cons q qs' =>
      have hb : buffer ++ data = STX :: (stuffBytes q ++ [ETX] ++
          ((qs'.map send_frame).flatten ++ r)) := by
        rw [hbd]
        simp [send_frame, List.flatten_cons]
      have hhead : findByte STX (buffer ++ data) = some 0 := by
        rw [hb]
        simp [findByte]
      rw [pipe_some buffer data 0 hhead, hbd, frameLoop_join (q :: qs') r hr]

/-- Any way of cutting a prefix out of a concatenation of wrapped frames
splits it into whole wrapped frames plus a safe residual. -/
theorem split_join : ∀ (qs : List (List Nat)) (b c : List Nat),
    b ++ c = (qs.map send_frame).flatten →
    ∃ done rem r, qs = done ++ rem ∧ b = ((done.map send_frame).flatten) ++ r ∧
      SafeResidual r ∧ r ++ c = (rem.map send_frame).flatten
  | [], b, c, h => by
      simp only [List.map_nil, List.flatten_nil] at h
      rcases List.append_eq_nil.mp h with ⟨rfl, rfl⟩
      exact ⟨[], [], [], rfl, rfl, Or.inl rfl, rfl⟩
  | q :: qs', b, c, h => by
      rw [show ((q :: qs').map send_frame).flatten =
          send_frame q ++ (qs'.map send_frame).flatten from by
            simp [List.flatten_cons]] at h
      rcases List.append_eq_append_iff.mp h with ⟨a', ha1, ha2⟩ | ⟨c', hc1, hc2⟩
      · -- send_frame q = b ++ a' : b is a prefix of the first wrapped frame
        cases a' with
        | nil =>
            -- b is exactly the first wrapped frame
            refine ⟨[q], qs', [], rfl, ?_, Or.inl rfl, ?_⟩
            · simp only [List.append_nil] at ha1
              simp [ha1, List.flatten_cons]
            · simpa using ha2
        | cons a0 at' =>
            -- b is a proper prefix: a safe residual
            refine ⟨[], q :: qs', b, rfl, by simp, ?_, ?_⟩
            · -- SafeResidual b
              cases b with
              | nil => exact Or.inl rfl
              | cons b0 tb =>
                  right
                  have hsf : send_frame q = STX :: (stuffBytes q ++ [ETX]) := by
                    simp [send_frame]
                  rw [hsf] at ha1
                  simp only [List.cons_append] at ha1
                  obtain ⟨hb0, htb⟩ := List.cons_eq_cons.mp ha1
                  refine ⟨tb, by rw [hb0], ?_⟩
                  intro hmem
                  -- stuffBytes q ++ [ETX] = tb ++ (a0 :: at')
                  rcases List.append_eq_append_iff.mp htb with
                    ⟨e, he1, he2⟩ | ⟨e, he1, he2⟩
                  · -- tb = stuffBytes q ++ e and [ETX] = e ++ (a0 :: at')
                    cases e with
                    | nil =>
                        simp only [List.append_nil] at he1
                        rw [he1] at hmem
                        exact etx_not_mem_stuff q hmem
                    | cons e0 et =>
                        exfalso
                        have := congrArg List.length he2
                        simp at this
                  · -- stuffBytes q = tb ++ e : tb is a prefix of the stuffed body
                    apply etx_not_mem_stuff q
                    rw [he1]
                    exact List.mem_append_left e hmem
            · rw [ha2, ← List.append_assoc]
              congr 1
              exact ha1.symm
      · -- b = send_frame q ++ c' : recurse on the rest
        obtain ⟨done', rem', r', hq', hb', hsafe', hrc'⟩ :=
          split_join qs' c' c (by rw [← hc2])
        refine ⟨q :: done', rem', r', by simp [hq'], ?_, hsafe', hrc'⟩
        rw [hc1, hb']
        simp [List.flatten_cons]

/-- Feeding any chunking of a concatenation of wrapped frames (after a
safe residual) through the pipe extracts exactly the stuffed bodies and
empties the buffer. -/
theorem runPipe_join : ∀ (cs qs : List (List Nat)) (r : List Nat),
    SafeResidual r → r ++ cs.flatten = (qs.map send_frame).flatten →
    runPipe r cs = (qs.map stuffBytes, [])
  | [], qs, r, hr, h => by
      have h' : r = (qs.map send_frame).flatten := by simpa using h
      cases qs with
      | nil =>
          simp only [List.map_nil, List.flatten_nil] at h'
          subst h'
          simp [runPipe]
      | cons q qs' =>
          exfalso
          rw [show ((q :: qs').map send_frame).flatten =
              STX :: (stuffBytes q ++ [ETX] ++ (qs'.map send_frame).flatten) from by
                simp [send_frame, List.flatten_cons]] at h'
          rcases hr with rfl | ⟨t, rfl, ht⟩
          · cases h'
          · obtain ⟨_, ht2⟩ := List.cons_eq_cons.mp h'
            apply ht
            rw [ht2]
            simp
  | ch :: cs', qs, r, hr, h => by
      obtain ⟨done, rem, r', hqs, hb, hsafe, hrc⟩ := split_join qs (r ++ ch) cs'.flatten
        (by rw [← h]; simp [List.flatten_cons])
      have hpipe := pipe_join done r' r ch hsafe hb
      have ih := runPipe_join cs' rem r' hsafe hrc
      simp only [runPipe, hpipe, ih]
      rw [hqs]
      simp

/-- Claim C3: for any payload sequence and any chunking of the
concatenation of their wrapped frames, the streaming decoder delivers
exactly the payloads, in order, and consumes all their octets. -/
theorem streaming_decoder_exact (ps cs : List (List Nat))
    (h : cs.flatten = (ps.map send_frame).flatten) :
    (runPipe [] cs).1.map process_raw_frame = ps ∧ (runPipe [] cs).2 = [] := by
  have hr := runPipe_join cs ps [] (Or.inl rfl) (by simpa using h)
  rw [hr]
  refine ⟨?_, rfl⟩
  simp [List.map_map, Function.comp_def, destuff_stuff]

/-- Witness for C3: the single payload of scenario S1 delivered across a
chunk boundary that splits its wrapped frame inside an escape pair. -/
theorem streaming_decoder_exact_witness :
    (([[2, 16], [112, 16, 98, 16, 99, 3]] : List (List Nat)).flatten =
      (([[16, 2, 3]] : List (List Nat)).map send_frame).flatten)
    ∧ ((runPipe [] [[2, 16], [112, 16, 98, 16, 99, 3]]).1.map process_raw_frame
          = [[16, 2, 3]]
        ∧ (runPipe [] [[2, 16], [112, 16, 98, 16, 99, 3]]).2 = []) :=
  ⟨by decide, streaming_decoder_exact [[16, 2, 3]] [[2, 16], [112, 16, 98, 16, 99, 3]]
    (by decide)⟩

/-- Counterexample to claim C9 at the frame `b"\x02\x10\x03"`, whose body
is a single dangling `DLE`.  The claim says the decode step fails, the
frame is dropped and reported malformed, and nothing reaches the
classifier; in fact the replace-based reverse substitution cannot fail:
the frame decodes to `b"\x10"` and is delivered (the buffer is advanced
past the `ETX`, as claimed). -/
theorem dangling_dle_counterexample :
    (runPipe [] [[2, 16, 3]]).1.map process_raw_frame = [[16]]
    ∧ (runPipe [] [[2, 16, 3]]).2 = [] := by decide

/-- A complete single frame in one chunk is extracted whole. -/
theorem pipe_single_frame (body : List Nat) (h : ETX ∉ body) :
    pipe_data_received [] ((STX :: body) ++ [ETX]) = ([], [body]) := by
  have hnotmem : ETX ∉ STX :: body := by
    intro hmem
    rcases List.mem_cons.mp hmem with h1 | h2
    · exact absurd h1 (by decide)
    · exact h h2
  have hhead : findByte STX (([] : List Nat) ++ ((STX :: body) ++ [ETX])) = some 0 := by
    simp [findByte]
  rw [pipe_some [] _ 0 hhead]
  have hfind : pyFind ETX 0 (([] : List Nat) ++ ((STX :: body) ++ [ETX])) =
      some (STX :: body).length := by
    rw [pyFind_zero]
    simp only [List.nil_append]
    have e : (STX :: body) ++ [ETX] = (STX :: body) ++ ETX :: [] := rfl
    rw [e]
    exact findByte_append ETX (STX :: body) [] hnotmem
  rw [frameLoop_some 0 _ _ hfind]
  have htake : ((([] : List Nat) ++ ((STX :: body) ++ [ETX])).take
      (STX :: body).length).drop (0 + 1) = body := by
    simp only [List.nil_append]
    rw [List.take_left]
    simp
  have hdrop : (([] : List Nat) ++ ((STX :: body) ++ [ETX])).drop
      ((STX :: body).length + 1) = [] := by
    simp only [List.nil_append]
    have hlen : (STX :: body).length + 1 = ((STX :: body) ++ [ETX]).length := by simp
    rw [hlen, List.drop_length]
  rw [htake, hdrop, frameLoop_none 0 [] (by simp [pyFind, findByte])]

/-- Claim C9 amended: a frame body ending in a dangling `DLE` is decoded
by the reverse substitutions with the trailing `DLE` left intact, and the
decoded frame is delivered to the classifier; the stream buffer is still
advanced past that frame's `ETX`.  (The replace-based decode step cannot
fail, so no frame is dropped or reported malformed.) -/
theorem dangling_dle_delivered (r : List Nat) (h : ETX ∉ r) :
    (runPipe [] [(STX :: (r ++ [DLE])) ++ [ETX]]).1.map process_raw_frame
      = [process_raw_frame r ++ [DLE]]
    ∧ (runPipe [] [(STX :: (r ++ [DLE])) ++ [ETX]]).2 = [] := by
  have hmem : ETX ∉ r ++ [DLE] := by
    intro hmem
    rcases List.mem_append.mp hmem with h3 | h4
    · exact h h3
    · exact absurd (List.mem_singleton.mp h4) (by decide)
  have hpipe := pipe_single_frame (r ++ [DLE]) hmem
  constructor
  · simp only [runPipe, hpipe]
    simp [destuff_append_dle]
  · simp only [runPipe, hpipe]

/-- Witness for the amended C9 at the frame body `b"a\x10"`. -/
theorem dangling_dle_delivered_witness :
    (ETX ∉ ([97] : List Nat))
    ∧ ((runPipe [] [(STX :: (([97] : List Nat) ++ [DLE])) ++ [ETX]]).1.map
          process_raw_frame = [process_raw_frame [97] ++ [DLE]]
        ∧ (runPipe [] [(STX :: (([97] : List Nat) ++ [DLE])) ++ [ETX]]).2 = []) :=
  ⟨by decide, dangling_dle_delivered [97] (by decide)⟩

/-! ## Agent transmit state machine (claims C6 and C8) -/

/-- Claim C6: with `tx_attempts = 3`, an enqueued frame is transmitted as
`FS + frame` once by the enqueue and once per NAK while retries remain —
three identical FS transmissions in all — and the pump pass triggered by
the third NAK drops the frame without transmitting, leaving the queue
empty and no frame pending. -/
theorem retry_bound_trace (f : List Nat) :
    ((send_ethernet_frame 3 f (initState 3)).2 = [FSB :: f])
    ∧ ((on_response 3 false (send_ethernet_frame 3 f (initState 3)).1).2 = [FSB :: f])
    ∧ ((on_response 3 false
        (on_response 3 false (send_ethernet_frame 3 f (initState 3)).1).1).2 = [FSB :: f])
    ∧ ((on_response 3 false (on_response 3 false
        (on_response 3 false (send_ethernet_frame 3 f (initState 3)).1).1).1).2 = [])
    ∧ ((on_response 3 false (on_response 3 false
        (on_response 3 false (send_ethernet_frame 3 f (initState 3)).1).1).1).1.txBuffer = [])
    ∧ ((on_response 3 false (on_response 3 false
        (on_response 3 false (send_ethernet_frame 3 f (initState 3)).1).1).1).1.framePending
          = false) := by
  norm_num [initState, send_ethernet_frame, send_next, send_next_loop, on_response]

/-- Witness for C6 at the one-octet frame `b"\x00"`. -/
theorem retry_bound_trace_witness :
    ((send_ethernet_frame 3 [0] (initState 3)).2 = [FSB :: [0]])
    ∧ ((on_response 3 false (send_ethernet_frame 3 [0] (initState 3)).1).2 = [FSB :: [0]])
    ∧ ((on_response 3 false
        (on_response 3 false (send_ethernet_frame 3 [0] (initState 3)).1).1).2 = [FSB :: [0]])
    ∧ ((on_response 3 false (on_response 3 false
        (on_response 3 false (send_ethernet_frame 3 [0] (initState 3)).1).1).1).2 = [])
    ∧ ((on_response 3 false (on_response 3 false
        (on_response 3 false (send_ethernet_frame 3 [0] (initState 3)).1).1).1).1.txBuffer = [])
    ∧ ((on_response 3 false (on_response 3 false
        (on_response 3 false (send_ethernet_frame 3 [0] (initState 3)).1).1).1).1.framePending
          = false) :=
  retry_bound_trace [0]

theorem send_next_loop_inv (cfg : Int) :
    ∀ (buf : List (List Nat)) (ret : Int),
      pendingInvB (send_next_loop cfg ret buf).1 = true
  | [], _ => by simp [send_next_loop, pendingInvB]
  | f :: rest, ret => by
      by_cases h : ret ≤ 0
      · simp only [send_next_loop, if_pos h]
        exact send_next_loop_inv cfg rest cfg
      · simp [send_next_loop, if_neg h, pendingInvB, List.isEmpty]

theorem applyOp_inv (cfg : Int) (op : AgentOp) (s : AgentState)
    (h : pendingInvB s = true) : pendingInvB (applyOp cfg op s) = true := by
  cases op with
  | enqueue f =>
      dsimp only [applyOp, send_ethernet_frame]
      split
      · simp [pendingInvB, List.isEmpty_eq_true]
      · dsimp only [send_next]
        exact send_next_loop_inv cfg _ _
  | pumpOp =>
      dsimp only [applyOp, pump]
      split
      · exact h
      · dsimp only [send_next]
        exact send_next_loop_inv cfg _ _
  | response b =>
      dsimp only [applyOp, on_response]
      split
      · exact h
      · split
        · split
          · simp [pendingInvB]
          · dsimp only [send_next]
            exact send_next_loop_inv cfg _ _
        · dsimp only [send_next]
          exact send_next_loop_inv cfg _ _
  | exitOp => simp [applyOp, on_exit, pendingInvB]

theorem foldl_inv (cfg : Int) :
    ∀ (ops : List AgentOp) (s : AgentState), pendingInvB s = true →
      pendingInvB (ops.foldl (fun s op => applyOp cfg op s) s) = true
  | [], s, h => h
  | op :: ops, s, h => by
      simp only [List.foldl_cons]
      exact foldl_inv cfg ops (applyOp cfg op s) (applyOp_inv cfg op s h)

/-- Claim C8: the state invariant "frame_pending implies tx_buffer
non-empty" holds in the initial state and after every sequence of
operations (enqueue, pump, ACK or NAK response, child-exit reset). -/
theorem frame_pending_inv (txAttempts : Int) (ops : List AgentOp) :
    pendingInvB (runOps txAttempts ops) = true :=
  foldl_inv txAttempts ops (initState txAttempts) rfl

/-- Witness for C8 at a concrete operation sequence. -/
theorem frame_pending_inv_witness :
    pendingInvB (runOps 3 [AgentOp.enqueue [0], AgentOp.response false,
      AgentOp.pumpOp, AgentOp.response true, AgentOp.exitOp]) = true :=
  frame_pending_inv 3 [AgentOp.enqueue [0], AgentOp.response false,
    AgentOp.pumpOp, AgentOp.response true, AgentOp.exitOp]

/-! ## IPv6 next-header chaining (claim C7) -/

/-- Counterexample to claim C7 at a datagram whose single (hence last)
header is a generic extension header with a 6-octet body: the `payload`
property pairs the last header with `None`, not with 59, and
`IP6DatagramHeader.dump` then fails on `construct.Byte.build(None)`
instead of rendering a `next_header` octet of 59. -/
theorem last_header_none_counterexample :
    nextHeaderArgs [IP6Header.generic 0 [0, 0, 0, 0, 0, 0]] = [none]
    ∧ renderPayload [] [] [IP6Header.generic 0 [0, 0, 0, 0, 0, 0]] =
        Except.error PyErr.typeError := by
  constructor <;> rfl

/-- Claim C7 amended: on emit, header `i` is rendered with `next_header`
equal to the protocol number of header `i+1` for `i < n-1`, and the
datagram's own `next_header` equals the protocol number of header 0, or
59 when the header list is empty; the LAST header, however, is rendered
with `next_header = None` (terminal headers ignore it; a generic
extension header in last position fails to render), not 59. -/
theorem next_header_chaining :
    (∀ hs : List IP6Header,
        nextHeaderArgs hs =
          (hs.drop 1).map (fun h => some (IP6Header.this_header h)) ++
            (if hs = [] then [] else [none]))
    ∧ datagramNextHeader [] = 59
    ∧ ∀ (h : IP6Header) (hs : List IP6Header),
        datagramNextHeader (h :: hs) = IP6Header.this_header h := by
  refine ⟨?_, rfl, fun h hs => rfl⟩
  intro hs
  cases hs with
  | nil => rfl
  | cons h t =>
      simp only [nextHeaderArgs, List.drop_succ_cons, List.drop_zero,
        List.length_cons]
      have hlen : ((t.map (fun h => some (IP6Header.this_header h))) ++
          [(none : Option Nat)]).length = t.length + 1 := by
        simp
      rw [← hlen, List.take_length]
      simp

/-- Witness for the amended C7 at a two-header datagram (one generic
extension header followed by an ICMPv6 header). -/
theorem next_header_chaining_witness :
    nextHeaderArgs [IP6Header.generic 0 [0, 0, 0, 0, 0, 0],
        IP6Header.icmp6 128 0 [0, 0, 0, 0, 0, 0, 0, 0] []] =
      ([IP6Header.generic 0 [0, 0, 0, 0, 0, 0],
          IP6Header.icmp6 128 0 [0, 0, 0, 0, 0, 0, 0, 0] []].drop 1).map
            (fun h => some (IP6Header.this_header h)) ++
        (if ([IP6Header.generic 0 [0, 0, 0, 0, 0, 0],
              IP6Header.icmp6 128 0 [0, 0, 0, 0, 0, 0, 0, 0] []] :
            List IP6Header) = [] then [] else [none]) :=
  next_header_chaining.1 [IP6Header.generic 0 [0, 0, 0, 0, 0, 0],
    IP6Header.icmp6 128 0 [0, 0, 0, 0, 0, 0, 0, 0] []]
